import Mathlib

/-!
Verification of `bin/imd_grd_to_nc.py`.

A shallow embedding of the IMD GRD → NetCDF converter.  The program is a
linear pipeline: option resolution, input inference (`get_input`),
validation (`check_input`), output resolution (`check_output`), binary
decode (`read_data`) and serialisation (`write_data`).  Each stage is
translated here as a pure Lean function; `sys.exit(1)` failure paths become
`Except`/`Option` error results.  File contents are modelled as the list of
their bytes; 32-bit payload values are kept as little-endian bit patterns
(natural numbers below 2^32), since the program never computes with the
decoded values, it only moves them.

Strings are modelled as `List Char`.  Two Python regex facts matter and are
used where the source uses `re`:
  * `.` (and hence `.*`) does not match a newline unless `re.DOTALL` is set;
  * `$` matches at the end of the string and also just before a newline
    that is the last character.
-/

set_option maxRecDepth 4000

namespace ImdGrdToNc

/-- One entry of the `DATA_TYPES` dict: axis lengths (the lengths of the
`np.arange` lat/lon arrays), NetCDF variable name, units and fill value.
The rain axes are `np.arange(6.5, 38.75, .25)` (129 values) and
`np.arange(66.5, 100.25, .25)` (135 values); the temperature axes are
`np.arange(7.5, 38.5)` and `np.arange(67.5, 98.5)` (31 values each).
The fill value is carried as an exact rational (it is metadata only and is
never computed with). -/
structure DatasetSpec where
  latCount : Nat
  lonCount : Nat
  nc_var : String
  nc_units : String
  fill : Rat
  deriving Repr, DecidableEq

/-- The `DATA_TYPES` dict, keyed by the type strings used in the program.
Looking up a key that is not present (`'temp'`, or anything else) is a
Python `KeyError`, modelled as `none`. -/
def DATA_TYPES (key : String) : Option DatasetSpec :=
  if key = "rain" then
    some ⟨129, 135, "rainfall", "mm", -999⟩
  else if key = "mintemp" then
    some ⟨31, 31, "min_temp", "celsius", (999 : Rat) / 10⟩
  else if key = "maxtemp" then
    some ⟨31, 31, "max_temp", "celsius", (999 : Rat) / 10⟩
  else
    none

/-- The `MIN_YEAR` global. -/
def MIN_YEAR : Int := 1900

/-- The `MAX_YEAR` global. -/
def MAX_YEAR : Int := 2100

/-- The `file_ext` entry of the `NC_CONFIG` dict. -/
def NC_FILE_EXT : List Char := ['.', 'n', 'c']

/-- Program options, as produced by `argparse` in `get_options`.  `infile`
is handled separately (the input file is passed to the stages explicitly as
a path plus contents).  `argparse` restricts a supplied `--type` to the keys
of `DATA_TYPES` (`"rain"`, `"mintemp"`, `"maxtemp"`); that restriction is
carried as a hypothesis where a theorem needs it. -/
structure ProgOptions where
  outfile : Option (List Char)
  clobber : Bool
  type : Option String
  year : Option Int
  ncvar : Option String
  ncunits : Option String
  deriving Repr, DecidableEq

/-- The `prog_input` dict built by `get_input` and rebuilt by
`check_input`. -/
structure ProgInput where
  filename : List Char
  size : Nat
  type : String
  days : Nat
  year : Int
  year_match : Bool
  deriving Repr, DecidableEq

/-- The byte-size dispatch of `get_input` (the `if/elif` chain on
`input_size`): the four legal sizes map to a (type string, day count) pair,
every other size is fatal (`none`). -/
def sizeToTypeDays (size : Nat) : Option (String × Nat) :=
  if size = 25425901 then some ("rain", 365)
  else if size = 25495561 then some ("rain", 366)
  else if size = 1403061 then some ("temp", 365)
  else if size = 1406905 then some ("temp", 366)
  else none

/-- Python `os.path.basename`: the part of the path after the last `'/'`. -/
def basename (p : List Char) : List Char :=
  (p.reverse.takeWhile (fun c => c ≠ '/')).reverse

/-- ASCII lower-casing of a character, as `re.IGNORECASE` does for the
ASCII letters of the patterns `max` / `min`. -/
def charLower (c : Char) : Char :=
  if 'A' ≤ c ∧ c ≤ 'Z' then Char.ofNat (c.toNat + 32) else c

/-- Case-insensitive "starts with" on character lists. -/
def startsWithCI : List Char → List Char → Bool
  | [], _ => true
  | _ :: _, [] => false
  | t :: ts, c :: cs => (charLower c = charLower t) && startsWithCI ts cs

/-- Semantics of `re.match(r'.*TOK.*', s, flags=re.IGNORECASE)` as a Boolean:
true iff `TOK` occurs (case-insensitively) at some position of `s` whose
prefix contains no newline (the leading `.*` cannot cross `'\n'`; the
trailing `.*` can always match the empty string). -/
def scanToken (tok : List Char) : List Char → Bool
  | [] => startsWithCI tok []
  | c :: rest =>
    if startsWithCI tok (c :: rest) then true
    else if c = '\n' then false
    else scanToken tok rest

/-- Numeric value of an ASCII digit. -/
def digitVal (c : Char) : Nat := c.toNat - 48

/-- Does the list start with four decimal digits?  (The window that
`re.search(r'[0-9]{4}', ...)` tries at each position.) -/
def fourDigitsAt : List Char → Bool
  | d0 :: d1 :: d2 :: d3 :: _ => d0.isDigit && d1.isDigit && d2.isDigit && d3.isDigit
  | _ => false

/-- Value of the four leading digits (`int(match.group(0))`). -/
def fourDigitsVal : List Char → Nat
  | d0 :: d1 :: d2 :: d3 :: _ =>
    ((digitVal d0 * 10 + digitVal d1) * 10 + digitVal d2) * 10 + digitVal d3
  | _ => 0

/-- Behaviour of `re.search(r'[0-9]{4}', p)` followed by `int(...)`: the value of the
leftmost run of four consecutive digits, if any. -/
def findYear : List Char → Option Nat
  | [] => none
  | c :: rest =>
    if fourDigitsAt (c :: rest) then some (fourDigitsVal (c :: rest))
    else findYear rest

/-- Model of `get_input`: from the input path and the file's byte size, build the
initial `prog_input` dict.  The existence check is implicit in being given
a size; `prog_input['filename']` stores the path (`os.path.abspath` of the
argument — the embedding works with the stored string itself).  Note the
max/min rescan of the basename is applied unconditionally, not only for
temperature-sized files, and the `min` match is applied after (and so
overrides) the `max` match. -/
def getInput (path : List Char) (size : Nat) : Except String ProgInput :=
  match sizeToTypeDays size with
  | none => .error "Invalid input file size"
  | some (t0, days) =>
    let t1 := if scanToken ['m', 'a', 'x'] (basename path) then "maxtemp" else t0
    let t2 := if scanToken ['m', 'i', 'n'] (basename path) then "mintemp" else t1
    match findYear path with
    | some y => .ok ⟨path, size, t2, days, (y : Int), true⟩
    | none => .ok ⟨path, size, t2, days, -1, false⟩

/-- The distinguishable fatal outcomes of `check_input` (each is a
`sys.stderr.write` + `sys.exit(1)` in the source).  `leapMismatch` records
the day count, the offending year, and whether the extra
"Try specifying a year with the -y option" hint was printed. -/
inductive CheckErr where
  | ambiguousTemp : CheckErr
  | typeMismatch : String → String → CheckErr
  | missingYear : CheckErr
  | invalidYear : Int → CheckErr
  | leapMismatch : Nat → Int → Bool → CheckErr
  deriving Repr, DecidableEq

/-- Truthiness of `prog_options.type` in `if prog_options.type:` — a
supplied value is truthy iff it is a non-empty string (argparse `choices`
in fact forbids the empty string). -/
def typeOverrideTruthy (opts : ProgOptions) : Bool :=
  match opts.type with
  | some t => t ≠ ""
  | none => false

/-- The effective type resolved by `check_input`: the override when truthy,
otherwise the inferred type. -/
def effectiveType (opts : ProgOptions) (inp : ProgInput) : String :=
  match opts.type with
  | some t => if t ≠ "" then t else inp.type
  | none => inp.type

/-- Truthiness of `prog_options.year` in `if prog_options.year:` — a
supplied year is truthy iff it is non-zero (Python `if 0:` is false). -/
def yearOverrideTruthy (opts : ProgOptions) : Bool :=
  match opts.year with
  | some y => y ≠ 0
  | none => false

/-- The effective (year, year_match) pair resolved by `check_input`: a
truthy `--year` override wins and clears the match flag; otherwise the
inferred year and flag pass through. -/
def effectiveYearYM (opts : ProgOptions) (inp : ProgInput) : Int × Bool :=
  match opts.year with
  | some y => if y ≠ 0 then (y, false) else (inp.year, inp.year_match)
  | none => (inp.year, inp.year_match)

/-- The range test of `check_input`: `MIN_YEAR > year or MAX_YEAR < year`. -/
def yearOutOfRange (y : Int) : Bool :=
  MIN_YEAR > y || MAX_YEAR < y

/-- The type cross-check condition of `check_input`, verbatim from the
source: note the second and third disjuncts compare the effective type
against the strings `'min_temp'` / `'max_temp'`, which are NetCDF variable
names, not `DATA_TYPES` keys. -/
def typeMismatchCond (outType inType : String) : Bool :=
  (outType = "rain" && inType ≠ "rain") ||
    (outType = "min_temp" && inType = "rain") ||
    (outType = "max_temp" && inType = "rain")

/-- Model of `check_input`: resolve overrides against the inferred input
facts and validate, rebuilding the `prog_input` dict on success.  Each
`if`/`sys.exit(1)` of the source is one branch (a body that exits makes the
source's sequential `if`s equivalent to this `else if` chain). -/
def checkInput (opts : ProgOptions) (inp : ProgInput) : Except CheckErr ProgInput :=
  if effectiveType opts inp = "temp" then
    .error .ambiguousTemp
  else if typeMismatchCond (effectiveType opts inp) inp.type then
    .error (.typeMismatch (effectiveType opts inp) inp.type)
  else if (effectiveYearYM opts inp).1 = -1 then
    .error .missingYear
  else if yearOutOfRange (effectiveYearYM opts inp).1 then
    .error (.invalidYear (effectiveYearYM opts inp).1)
  else if inp.days = 366 ∧ ¬(effectiveYearYM opts inp).1 % 4 = 0 then
    .error (.leapMismatch 366 (effectiveYearYM opts inp).1 (effectiveYearYM opts inp).2)
  else if inp.days = 365 ∧ (effectiveYearYM opts inp).1 % 4 = 0 then
    .error (.leapMismatch 365 (effectiveYearYM opts inp).1 (effectiveYearYM opts inp).2)
  else
    .ok ⟨inp.filename, inp.size, effectiveType opts inp, inp.days,
      (effectiveYearYM opts inp).1, (effectiveYearYM opts inp).2⟩

/-- Semantics of `re.match(r'.*\.[^\.]+$', s)` as a Boolean.  Scanning from the
left: the leading `.*` cannot cross a newline, so the match succeeds iff
some `'.'` with a newline-free prefix is followed by a non-empty, dot-free
tail.  (`[^.]` does match `'\n'`, and the `$`-before-final-newline case is
subsumed: if the characters up to a final newline are dot-free, so are the
characters up to the true end.)  Since the tail must be dot-free, the dot
found is necessarily the last dot of the string. -/
def hasExtMatch : List Char → Bool
  | [] => false
  | c :: rest =>
    if c = '\n' then false
    else if c = '.' && !rest.isEmpty && rest.all (fun x => x ≠ '.') then true
    else hasExtMatch rest

/-- Everything before the last `'.'` of the reversed list dropped (helper
for `replaceExt`): removes the reversed extension together with its dot. -/
def dropExtRev : List Char → List Char
  | [] => []
  | c :: rest => if c = '.' then rest else dropExtRev rest

/-- Semantics of `re.sub(r'\.[^\.]+$', '.nc', s)` in the situation where `hasExtMatch s`
holds: the single match of `\.[^\.]+$` starts at the last dot (the matched
run may contain no dot and must reach the end of the string), so the
substitution replaces everything from the last dot on with `'.nc'`. -/
def replaceExt (s : List Char) : List Char :=
  (dropExtRev s.reverse).reverse ++ NC_FILE_EXT

/-- The output-path branch of `check_output`: a truthy `--outfile` override
wins; otherwise the input path's final extension is replaced with `'.nc'`
when the `.*\.[^\.]+$` match succeeds; otherwise `'.nc'` is appended. -/
def resolveOutPath (outfileOpt : Option (List Char)) (filename : List Char) : List Char :=
  match outfileOpt with
  | some o =>
    if o ≠ [] then o
    else if hasExtMatch filename then replaceExt filename else filename ++ NC_FILE_EXT
  | none =>
    if hasExtMatch filename then replaceExt filename else filename ++ NC_FILE_EXT

/-- The `prog_output` dict built by `check_output`. -/
structure ProgOutput where
  filename : List Char
  nc_var : String
  nc_units : String
  deriving Repr, DecidableEq

/-- Model of `check_output`: resolve the output path and the NetCDF variable name
and units.  Each of `nc_var` / `nc_units` is the truthy override when
supplied, and otherwise the `DATA_TYPES` default for the input's type —
the dict lookup (a possible `KeyError`, hence `Option`) is only evaluated
when the corresponding override is not truthy, exactly as in the source.
The clobber/existence check touches the filesystem and is outside this
embedding (and outside every claim below). -/
def checkOutput (opts : ProgOptions) (inp : ProgInput) : Option ProgOutput :=
  let fname := resolveOutPath opts.outfile inp.filename
  let nv : Option String :=
    match opts.ncvar with
    | some v => if v ≠ "" then some v else (DATA_TYPES inp.type).map (fun s => s.nc_var)
    | none => (DATA_TYPES inp.type).map (fun s => s.nc_var)
  let nu : Option String :=
    match opts.ncunits with
    | some u => if u ≠ "" then some u else (DATA_TYPES inp.type).map (fun s => s.nc_units)
    | none => (DATA_TYPES inp.type).map (fun s => s.nc_units)
  match nv, nu with
  | some v, some u => some ⟨fname, v, u⟩
  | _, _ => none

/-- The little-endian 32-bit word formed by the four bytes of `bytes` at
offset `off` (`struct.unpack('<f', ...)` reads exactly this bit pattern;
the embedding keeps the bit pattern rather than the float it denotes,
since the program never computes with the values). -/
def word32At (bytes : List Nat) (off : Nat) : Nat :=
  bytes.getD off 0 + 256 * bytes.getD (off + 1) 0 +
    65536 * bytes.getD (off + 2) 0 + 16777216 * bytes.getD (off + 3) 0

/-- Semantics of `struct.unpack('<' + 'f'*n, chunk)`: split the byte list into
consecutive groups of four and form the little-endian word of each group.
A trailing group of fewer than four bytes yields nothing (the real
`struct.unpack` would instead raise on a size mismatch; `readRecords`
checks the chunk length before unpacking). -/
def unpackLE : List Nat → List Nat
  | b0 :: b1 :: b2 :: b3 :: rest =>
    (b0 + 256 * b1 + 65536 * b2 + 16777216 * b3) :: unpackLE rest
  | _ => []

/-- Model of `numpy.reshape` applied to a flat list to `rows` rows of `cols` columns
(row-major, numpy's default C order). -/
def reshape (rows cols : Nat) (flat : List Nat) : List (List Nat) :=
  (List.range rows).map (fun r => (flat.drop (r * cols)).take cols)

/-- The read loop of `read_data`: for each of `days` sequential records,
read the next `latc * lonc * 4` bytes of the remaining file, unpack and
reshape them, and collect the grids in day order.  A short read makes
`struct.unpack` raise, modelled as `none`. -/
def readRecords (latc lonc : Nat) : Nat → List Nat → Option (List (List (List Nat)))
  | 0, _ => some []
  | d + 1, bytes =>
    if (bytes.take (latc * lonc * 4)).length = latc * lonc * 4 then
      match readRecords latc lonc d (bytes.drop (latc * lonc * 4)) with
      | some rest =>
        some (reshape latc lonc (unpackLE (bytes.take (latc * lonc * 4))) :: rest)
      | none => none
    else none

/-- The `prog_data` dict built by `read_data`: axis lengths, the input
facts passed through, the fill value, and the decoded day-by-grid array
(as bit patterns). -/
structure ProgData where
  nlats : Nat
  nlons : Nat
  type : String
  year : Int
  days : Nat
  fill : Rat
  data : List (List (List Nat))
  deriving Repr, DecidableEq

/-- Model of `read_data`: look up the dataset spec for the input's type (a
`KeyError` for an unknown type is `none`), then decode `days` records from
the start of the file. -/
def readData (fileBytes : List Nat) (inp : ProgInput) : Option ProgData :=
  match DATA_TYPES inp.type with
  | none => none
  | some spec =>
    match readRecords spec.latCount spec.lonCount inp.days fileBytes with
    | none => none
    | some arr =>
      some ⟨spec.latCount, spec.lonCount, inp.type, inp.year, inp.days, spec.fill, arr⟩

/-- What `write_data` writes: the file path, the time axis values
`0 .. days-1`, the axis lengths, and the primary data variable's name,
units, fill value and payload.  String-valued attributes that are fixed
constants of `NC_CONFIG` (axis names, calendar, compression level) are
omitted; nothing below claims anything about them. -/
structure NcFile where
  path : List Char
  timeVals : List Nat
  nlats : Nat
  nlons : Nat
  varName : String
  varUnits : String
  varFill : Rat
  varData : List (List (List Nat))
  deriving Repr, DecidableEq

/-- Model of `write_data`: serialise `prog_data` to the path of `prog_output`.
Note the source takes the data variable's name, units and fill value from
`DATA_TYPES[prog_data['type']]` — the `nc_var` / `nc_units` fields of
`prog_output` are never read (the only `prog_output` field used is
`filename`). -/
def writeData (pd : ProgData) (po : ProgOutput) : Option NcFile :=
  match DATA_TYPES pd.type with
  | none => none
  | some spec =>
    some ⟨po.filename, List.range pd.days, pd.nlats, pd.nlons,
      spec.nc_var, spec.nc_units, spec.fill, pd.data⟩

/-! Helper lemmas. -/

theorem sizeToTypeDays_days {s : Nat} {t : String} {d : Nat}
    (h : sizeToTypeDays s = some (t, d)) : d = 365 ∨ d = 366 := by
  unfold sizeToTypeDays at h
  split at h
  · exact Or.inl (by cases h; rfl)
  · split at h
    · exact Or.inr (by cases h; rfl)
    · split at h
      · exact Or.inl (by cases h; rfl)
      · split at h
        · exact Or.inr (by cases h; rfl)
        · exact absurd h (by simp)

theorem getInput_ok_sizeToTypeDays {p : List Char} {s : Nat} {inp : ProgInput}
    (h : getInput p s = Except.ok inp) :
    ∃ t0, sizeToTypeDays s = some (t0, inp.days) := by
  unfold getInput at h
  cases hs : sizeToTypeDays s with
  | none => rw [hs] at h; exact absurd h (by simp)
  | some td =>
    obtain ⟨t0, days⟩ := td
    rw [hs] at h
    refine ⟨t0, ?_⟩
    cases hf : findYear p with
    | some y => rw [hf] at h; cases h; rfl
    | none => rw [hf] at h; cases h; rfl

/-! Claim theorems. -/

/-- C4: the byte-size dispatch of Input Inference maps 25425901 to
(rainfall, 365 days), 25495561 to (rainfall, 366 days), 1403061 to
(generic temperature, 365 days) and 1406905 to (generic temperature,
366 days); any other size makes `get_input` terminate with the
"Invalid input file size" diagnostic; and the day count of any
successfully inferred input is exactly 365 or 366 and is a function of the
file size alone. -/
theorem c4_size_dispatch :
    sizeToTypeDays 25425901 = some ("rain", 365) ∧
    sizeToTypeDays 25495561 = some ("rain", 366) ∧
    sizeToTypeDays 1403061 = some ("temp", 365) ∧
    sizeToTypeDays 1406905 = some ("temp", 366) ∧
    (∀ s : Nat, s ≠ 25425901 → s ≠ 25495561 → s ≠ 1403061 → s ≠ 1406905 →
      sizeToTypeDays s = none ∧
        ∀ p : List Char, getInput p s = Except.error "Invalid input file size") ∧
    (∀ (p : List Char) (s : Nat) (inp : ProgInput),
      getInput p s = Except.ok inp → inp.days = 365 ∨ inp.days = 366) ∧
    (∀ (p q : List Char) (s : Nat) (inp inq : ProgInput),
      getInput p s = Except.ok inp → getInput q s = Except.ok inq →
        inp.days = inq.days) := by
  refine ⟨rfl, rfl, rfl, rfl, ?_, ?_, ?_⟩
  · intro s h1 h2 h3 h4
    have hnone : sizeToTypeDays s = none := by
      unfold sizeToTypeDays
      rw [if_neg h1, if_neg h2, if_neg h3, if_neg h4]
    exact ⟨hnone, fun p => by unfold getInput; rw [hnone]⟩
  · intro p s inp h
    obtain ⟨t0, hs⟩ := getInput_ok_sizeToTypeDays h
    exact sizeToTypeDays_days hs
  · intro p q s inp inq hp hq
    obtain ⟨t0, hs0⟩ := getInput_ok_sizeToTypeDays hp
    obtain ⟨t1, hs1⟩ := getInput_ok_sizeToTypeDays hq
    rw [hs0] at hs1
    exact congrArg Prod.snd (Option.some.inj hs1)

/-- Witness for C4 at a concrete illegal size. -/
theorem c4_size_dispatch_witness :
    sizeToTypeDays 12345 = none :=
  (c4_size_dispatch.2.2.2.2.1 12345 (by decide) (by decide) (by decide)
    (by decide)).1

/-- C3 is a code bug: the max/min filename rescan in `get_input` is applied
unconditionally, not only when the byte size indicated generic temperature
(the source comment "if this is temperature data, try to guess ..."
notwithstanding).  A rainfall-sized file (25425901 bytes) whose basename
contains "max" is inferred as `maxtemp`, although the size dispatch said
`rain`. -/
theorem c3_rescan_unconditional :
    getInput ("rainmax_2001.grd".toList) 25425901 =
      Except.ok ⟨"rainmax_2001.grd".toList, 25425901, "maxtemp", 365, 2001, true⟩ ∧
    sizeToTypeDays 25425901 = some ("rain", 365) ∧
    ("maxtemp" : String) ≠ "rain" := by
  exact ⟨rfl, rfl, by decide⟩

/-- C2 is a code bug: the type cross-check of `check_input` compares the
effective type against the strings `'min_temp'` / `'max_temp'`, but the
`--type` option only ever takes the values `'rain'`, `'mintemp'`,
`'maxtemp'` (the `DATA_TYPES` keys), so the "min/max override on a
rainfall-sized file" rejection can never fire.  Concretely, an explicit
`-t mintemp` on a rainfall-sized input passes validation with type
`mintemp`, where the claim (and the source's intent) demands a fatal
type-mismatch error. -/
theorem c2_mintemp_override_accepted :
    checkInput ⟨none, false, some "mintemp", none, none, none⟩
        ⟨"rainfall_2001.grd".toList, 25425901, "rain", 365, 2001, true⟩ =
      Except.ok ⟨"rainfall_2001.grd".toList, 25425901, "mintemp", 365, 2001, true⟩ ∧
    typeMismatchCond "mintemp" "rain" = false ∧
    typeMismatchCond "min_temp" "rain" = true := by
  exact ⟨rfl, by decide, by decide⟩

/-- C1 is a code bug: `write_data` takes the emitted variable name and
units from `DATA_TYPES[prog_data['type']]`, ignoring the `nc_var` /
`nc_units` fields that `check_output` resolved into the output descriptor
(whose override values therefore never reach the file).  Concretely, with
`--ncvar precip --ncunits inches` on a rainfall input, `check_output`
resolves the overrides, yet the emitted variable is named `rainfall` with
units `mm`. -/
theorem c1_emit_ignores_overrides :
    checkOutput ⟨none, false, none, none, some "precip", some "inches"⟩
        ⟨"a.grd".toList, 25425901, "rain", 365, 2001, true⟩ =
      some ⟨"a.nc".toList, "precip", "inches"⟩ ∧
    writeData ⟨129, 135, "rain", 2001, 365, -999, []⟩
        ⟨"a.nc".toList, "precip", "inches"⟩ =
      some ⟨"a.nc".toList, List.range 365, 129, 135, "rainfall", "mm", -999, []⟩ ∧
    ("rainfall" : String) ≠ "precip" ∧ ("mm" : String) ≠ "inches" := by
  exact ⟨rfl, rfl, by decide, by decide⟩

theorem effectiveYearYM_snd (opts : ProgOptions) (inp : ProgInput) :
    (effectiveYearYM opts inp).2 = (!yearOverrideTruthy opts && inp.year_match) := by
  unfold effectiveYearYM yearOverrideTruthy
  cases opts.year with
  | none => simp
  | some y =>
    by_cases hy : y = 0
    · subst hy; simp
    · simp [hy]

/-- C6: validation terminates with a diagnostic whenever the effective year
is the `-1` sentinel, and whenever it lies outside `[MIN_YEAR, MAX_YEAR]`;
the boundary years 1900 and 2100 themselves pass the range check. -/
theorem c6_year_checks (opts : ProgOptions) (inp : ProgInput) :
    ((effectiveYearYM opts inp).1 = -1 →
      ∃ e, checkInput opts inp = Except.error e) ∧
    (yearOutOfRange (effectiveYearYM opts inp).1 = true →
      ∃ e, checkInput opts inp = Except.error e) ∧
    yearOutOfRange 1900 = false ∧ yearOutOfRange 2100 = false := by
  refine ⟨?_, ?_, by decide, by decide⟩
  · intro h
    unfold checkInput
    split
    · exact ⟨_, rfl⟩
    split
    · exact ⟨_, rfl⟩
    exact ⟨_, rfl⟩
  · intro h
    unfold checkInput
    split
    · exact ⟨_, rfl⟩
    split
    · exact ⟨_, rfl⟩
    split
    · exact ⟨_, rfl⟩
    exact ⟨_, rfl⟩

/-- Witness for C6: a rainfall-sized input with no year in the filename and
no override is rejected. -/
theorem c6_year_checks_witness :
    ∃ e, checkInput ⟨none, false, none, none, none, none⟩
        ⟨"data.grd".toList, 25425901, "rain", 365, -1, false⟩ =
      Except.error e :=
  (c6_year_checks ⟨none, false, none, none, none, none⟩
    ⟨"data.grd".toList, 25425901, "rain", 365, -1, false⟩).1 (by decide)

/-- C5: validation fails whenever the day count is 366 and the effective
year is not divisible by 4, and whenever the day count is 365 and the
effective year is divisible by 4 (the simplified leap rule); and every
leap-mismatch diagnostic carries the "try -y" hint exactly when the year
was not a truthy `--year` override and the input's year came from the
filename (`year_match`). -/
theorem c5_leap_check (opts : ProgOptions) (inp : ProgInput) :
    (((inp.days = 366 ∧ ¬(effectiveYearYM opts inp).1 % 4 = 0) ∨
      (inp.days = 365 ∧ (effectiveYearYM opts inp).1 % 4 = 0)) →
      ∃ e, checkInput opts inp = Except.error e) ∧
    (∀ (d : Nat) (y : Int) (hint : Bool),
      checkInput opts inp = Except.error (CheckErr.leapMismatch d y hint) →
      hint = (!yearOverrideTruthy opts && inp.year_match) ∧
      y = (effectiveYearYM opts inp).1 ∧
      inp.days = d ∧
      ((d = 366 ∧ ¬ y % 4 = 0) ∨ (d = 365 ∧ y % 4 = 0))) := by
  constructor
  · intro h
    unfold checkInput
    split
    · exact ⟨_, rfl⟩
    split
    · exact ⟨_, rfl⟩
    split
    · exact ⟨_, rfl⟩
    split
    · exact ⟨_, rfl⟩
    split
    · exact ⟨_, rfl⟩
    split
    · exact ⟨_, rfl⟩
    rename_i h5 h6
    cases h with
    | inl h1 => exact absurd h1 h5
    | inr h2 => exact absurd h2 h6
  · intro d y hint h
    unfold checkInput at h
    split at h
    · exact absurd h (by simp)
    split at h
    · exact absurd h (by simp)
    split at h
    · exact absurd h (by simp)
    split at h
    · exact absurd h (by simp)
    split at h
    · rename_i hc
      rw [Except.error.injEq, CheckErr.leapMismatch.injEq] at h
      obtain ⟨hd, hy, hh⟩ := h
      exact ⟨hh.symm.trans (effectiveYearYM_snd opts inp), hy.symm,
        hd ▸ hc.1, Or.inl ⟨hd.symm, hy ▸ hc.2⟩⟩
    split at h
    · rename_i hc
      rw [Except.error.injEq, CheckErr.leapMismatch.injEq] at h
      obtain ⟨hd, hy, hh⟩ := h
      exact ⟨hh.symm.trans (effectiveYearYM_snd opts inp), hy.symm,
        hd ▸ hc.1, Or.inr ⟨hd.symm, hy ▸ hc.2⟩⟩
    · exact absurd h (by simp)

/-- Witness for C5: a 365-day temperature input whose filename-derived year
2000 is divisible by 4 is rejected. -/
theorem c5_leap_check_witness :
    ∃ e, checkInput ⟨none, false, none, none, none, none⟩
        ⟨"temp_min_2000.grd".toList, 1403061, "mintemp", 365, 2000, true⟩ =
      Except.error e :=
  (c5_leap_check ⟨none, false, none, none, none, none⟩
    ⟨"temp_min_2000.grd".toList, 1403061, "mintemp", 365, 2000, true⟩).1
    (Or.inr ⟨rfl, by decide⟩)

/-- Spec-side predicate, taken from the claim's wording: the path ends in a
final extension, i.e. decomposes as `A ++ '.' :: B` with `B` non-empty and
dot-free ("a trailing dot followed by non-dot characters"). -/
def specHasFinalExt (p : List Char) : Prop :=
  ∃ A B, p = A ++ '.' :: B ∧ B ≠ [] ∧ '.' ∉ B

theorem dropExtRev_append (B r : List Char) (hB : '.' ∉ B) :
    dropExtRev (B ++ '.' :: r) = r := by
  induction B with
  | nil => simp [dropExtRev]
  | cons b bs ih =>
    rw [List.mem_cons, not_or] at hB
    have hb : ¬ b = '.' := fun h => hB.1 h.symm
    rw [List.cons_append]
    unfold dropExtRev
    rw [if_neg hb]
    exact ih hB.2

theorem replaceExt_eq (A B : List Char) (_hB : B ≠ []) (hBdot : '.' ∉ B) :
    replaceExt (A ++ '.' :: B) = A ++ NC_FILE_EXT := by
  unfold replaceExt
  have h1 : (A ++ '.' :: B).reverse = B.reverse ++ '.' :: A.reverse := by
    rw [List.reverse_append, List.reverse_cons, List.append_assoc]
    rfl
  rw [h1, dropExtRev_append B.reverse A.reverse (by simpa using hBdot),
    List.reverse_reverse]

theorem specHasFinalExt_of_hasExtMatch {p : List Char}
    (h : hasExtMatch p = true) : specHasFinalExt p := by
  induction p with
  | nil => exact absurd h (by simp [hasExtMatch])
  | cons c rest ih =>
    unfold hasExtMatch at h
    split at h
    · cases h
    · split at h
      · rename_i hcond
        rw [Bool.and_eq_true, Bool.and_eq_true] at hcond
        obtain ⟨⟨hdot, hne⟩, hall⟩ := hcond
        rw [decide_eq_true_eq] at hdot
        rw [List.all_eq_true] at hall
        refine ⟨[], rest, by rw [hdot]; rfl, ?_, ?_⟩
        · simpa [List.isEmpty_iff] using hne
        · intro hmem
          have hx := hall '.' hmem
          simp at hx
      · obtain ⟨A, B, hp, hB, hBd⟩ := ih h
        exact ⟨c :: A, B, by rw [hp]; rfl, hB, hBd⟩

theorem hasExtMatch_of_specHasFinalExt {p : List Char} (hn : '\n' ∉ p)
    (h : specHasFinalExt p) : hasExtMatch p = true := by
  obtain ⟨A, B, hp, hB, hBd⟩ := h
  subst hp
  induction A with
  | nil =>
    rw [List.nil_append]
    have hall : (B.all fun x => decide (x ≠ '.')) = true := by
      rw [List.all_eq_true]
      intro x hx
      rw [decide_eq_true_eq]
      intro he
      exact hBd (he ▸ hx)
    have hne : B.isEmpty = false := by
      cases B with
      | nil => exact absurd rfl hB
      | cons b bs => rfl
    simp [hasExtMatch, hall, hne]
    exact Or.inl (fun x hx he => hBd (he ▸ hx))
  | cons a A ih =>
    rw [List.cons_append] at hn ⊢
    rw [List.mem_cons, not_or] at hn
    simp only [hasExtMatch]
    rw [if_neg (fun h => hn.1 h.symm)]
    split
    · rfl
    · exact ih hn.2

/-- C7 fails as stated on a path containing a newline: the extension test
`re.match(r'.*\.[^\.]+$', ...)` cannot cross the newline, so the path
`"a\n.b"` — which does end in a final extension `".b"` in the claim's sense
— gets `".nc"` appended rather than having `".b"` replaced. -/
theorem c7_counterexample :
    resolveOutPath none ('a' :: '\n' :: '.' :: 'b' :: []) =
      ('a' :: '\n' :: '.' :: 'b' :: '.' :: 'n' :: 'c' :: []) ∧
    ('a' :: '\n' :: '.' :: 'b' :: []) = ('a' :: '\n' :: []) ++ '.' :: ('b' :: []) ∧
    ('b' :: []) ≠ ([] : List Char) ∧ '.' ∉ ('b' :: []) ∧
    resolveOutPath none ('a' :: '\n' :: '.' :: 'b' :: []) ≠
      ('a' :: '\n' :: []) ++ NC_FILE_EXT := by
  exact ⟨rfl, rfl, by decide, by decide, by decide⟩

/-- C7 (amended to newline-free paths and truthy overrides): for an input
path without a newline character, output resolution returns a supplied
non-empty `--outfile` override unchanged; with no truthy override it
replaces the path's final extension (a trailing dot followed by non-dot
characters) by `.nc`, or appends `.nc` when there is no such extension.
Resolution is a pure function of (override, path), so it is deterministic. -/
theorem c7_output_resolution (o : Option (List Char)) (p : List Char)
    (hn : '\n' ∉ p) :
    (∀ s, o = some s → s ≠ [] → resolveOutPath o p = s) ∧
    ((o = none ∨ o = some []) →
      (∀ A B, p = A ++ '.' :: B → B ≠ [] → '.' ∉ B →
        resolveOutPath o p = A ++ NC_FILE_EXT) ∧
      (¬ specHasFinalExt p → resolveOutPath o p = p ++ NC_FILE_EXT)) ∧
    resolveOutPath o p = resolveOutPath o p := by
  refine ⟨?_, ?_, rfl⟩
  · intro s hs hne
    subst hs
    simp [resolveOutPath, hne]
  · intro ho
    constructor
    · intro A B hp hB hBd
      have hext : hasExtMatch p = true :=
        hasExtMatch_of_specHasFinalExt hn ⟨A, B, hp, hB, hBd⟩
      have hrep : replaceExt p = A ++ NC_FILE_EXT := by
        rw [hp]; exact replaceExt_eq A B hB hBd
      cases ho with
      | inl h => subst h; simp [resolveOutPath, hext, hrep]
      | inr h => subst h; simp [resolveOutPath, hext, hrep]
    · intro hns
      have hext : hasExtMatch p = false := by
        cases hh : hasExtMatch p
        · rfl
        · exact absurd (specHasFinalExt_of_hasExtMatch hh) hns
      cases ho with
      | inl h => subst h; simp [resolveOutPath, hext]
      | inr h => subst h; simp [resolveOutPath, hext]

/-- Witness for C7: a supplied non-empty override is returned unchanged. -/
theorem c7_output_resolution_witness :
    resolveOutPath (some ("out.nc".toList)) ("/x/a.grd".toList) =
      "out.nc".toList :=
  (c7_output_resolution (some ("out.nc".toList)) ("/x/a.grd".toList)
    (by decide)).1 ("out.nc".toList) rfl (by decide)

theorem findYear_some_leftmost :
    ∀ (p : List Char) (y : Nat), findYear p = some y →
      ∃ i, fourDigitsAt (p.drop i) = true ∧
        (∀ j, j < i → fourDigitsAt (p.drop j) = false) ∧
        y = fourDigitsVal (p.drop i) := by
  intro p
  induction p with
  | nil => intro y h; cases h
  | cons c rest ih =>
    intro y h
    unfold findYear at h
    split at h
    · rename_i hc
      cases h
      exact ⟨0, by simpa using hc, fun j hj => absurd hj (Nat.not_lt_zero j),
        by simp⟩
    · rename_i hc
      obtain ⟨i, h1, h2, h3⟩ := ih y h
      refine ⟨i + 1, by simpa using h1, ?_, by simpa using h3⟩
      intro j hj
      cases j with
      | zero =>
        have : fourDigitsAt (c :: rest) = false := by
          revert hc; cases fourDigitsAt (c :: rest) <;> simp
        simpa using this
      | succ j' => simpa using h2 j' (Nat.lt_of_succ_lt_succ hj)

theorem findYear_none_iff :
    ∀ p : List Char, findYear p = none ↔
      ∀ i, fourDigitsAt (p.drop i) = false := by
  intro p
  induction p with
  | nil =>
    constructor
    · intro _ i; rw [List.drop_nil]; rfl
    · intro _; rfl
  | cons c rest ih =>
    unfold findYear
    split
    · rename_i hc
      constructor
      · intro h; cases h
      · intro hall
        have h0 := hall 0
        rw [List.drop_zero] at h0
        rw [hc] at h0
        cases h0
    · rename_i hc
      have hc0 : fourDigitsAt (c :: rest) = false := by
        revert hc; cases fourDigitsAt (c :: rest) <;> simp
      constructor
      · intro h i
        cases i with
        | zero => simpa using hc0
        | succ i' => simpa using (ih.mp h) i'
      · intro hall
        refine ih.mpr ?_
        intro i
        simpa using hall (i + 1)

/-- C8: year inference extracts the leftmost run of four consecutive
digits anywhere in the input path (every earlier position fails the
four-digit test) and records it with the matched-from-filename flag set;
when no position carries four consecutive digits it yields the sentinel
`-1` with the flag cleared, and `get_input` still succeeds (no error at
this stage). -/
theorem c8_year_inference (p : List Char) :
    (∀ y, findYear p = some y →
      ∃ i, fourDigitsAt (p.drop i) = true ∧
        (∀ j, j < i → fourDigitsAt (p.drop j) = false) ∧
        y = fourDigitsVal (p.drop i)) ∧
    (findYear p = none ↔ ∀ i, fourDigitsAt (p.drop i) = false) ∧
    (∀ (s : Nat) (inp : ProgInput), getInput p s = Except.ok inp →
      (∀ y, findYear p = some y → inp.year = (y : Int) ∧ inp.year_match = true) ∧
      (findYear p = none → inp.year = -1 ∧ inp.year_match = false)) := by
  refine ⟨findYear_some_leftmost p, findYear_none_iff p, ?_⟩
  intro s inp h
  unfold getInput at h
  cases hs : sizeToTypeDays s with
  | none => rw [hs] at h; cases h
  | some td =>
    obtain ⟨t0, days⟩ := td
    rw [hs] at h
    cases hf : findYear p with
    | some y0 =>
      rw [hf] at h
      cases h
      constructor
      · intro y hy
        injection hy with hyy
        subst hyy
        exact ⟨rfl, rfl⟩
      · intro hy
        simp at hy
    | none =>
      rw [hf] at h
      cases h
      constructor
      · intro y hy
        simp at hy
      · intro _
        exact ⟨rfl, rfl⟩

/-- Witness for C8: in `"ab2001cd2002"` the leftmost four-digit run, 2001,
is the one extracted. -/
theorem c8_year_inference_witness :
    ∃ i, fourDigitsAt (("ab2001cd2002".toList).drop i) = true ∧
      (∀ j, j < i → fourDigitsAt (("ab2001cd2002".toList).drop j) = false) ∧
      2001 = fourDigitsVal (("ab2001cd2002".toList).drop i) :=
  (c8_year_inference ("ab2001cd2002".toList)).1 2001 rfl

/-- Spec-side predicate: the token occurs (case-insensitively) somewhere in
the string. -/
def containsTokenCI (tok p : List Char) : Prop :=
  ∃ i, startsWithCI tok (p.drop i) = true

theorem scanToken_of_containsTokenCI (tok p : List Char) (hn : '\n' ∉ p)
    (h : containsTokenCI tok p) : scanToken tok p = true := by
  obtain ⟨i, hi⟩ := h
  induction p generalizing i with
  | nil =>
    unfold scanToken
    rw [List.drop_nil] at hi
    exact hi
  | cons c rest ih =>
    rw [List.mem_cons, not_or] at hn
    unfold scanToken
    split
    · rfl
    · rename_i hstart
      rw [if_neg (fun h => hn.1 h.symm)]
      cases i with
      | zero => rw [List.drop_zero] at hi; exact absurd hi hstart
      | succ i' =>
        rw [List.drop_succ_cons] at hi
        exact ih hn.2 i' hi

/-- C10 fails as stated on a basename containing a newline between the
"max" and "min" substrings: `re.match(r'.*min.*', ...)` cannot carry its
leading `.*` across the newline, so for the temperature-sized file named
`"max\nmin"` — whose basename contains both substrings — the inferred type
is `maxtemp`, not `mintemp`. -/
theorem c10_counterexample :
    getInput ('m' :: 'a' :: 'x' :: '\n' :: 'm' :: 'i' :: 'n' :: []) 1403061 =
      Except.ok ⟨'m' :: 'a' :: 'x' :: '\n' :: 'm' :: 'i' :: 'n' :: [],
        1403061, "maxtemp", 365, -1, false⟩ ∧
    sizeToTypeDays 1403061 = some ("temp", 365) ∧
    startsWithCI ['m', 'a', 'x']
      (basename ('m' :: 'a' :: 'x' :: '\n' :: 'm' :: 'i' :: 'n' :: [])) = true ∧
    startsWithCI ['m', 'i', 'n']
      ((basename ('m' :: 'a' :: 'x' :: '\n' :: 'm' :: 'i' :: 'n' :: [])).drop 4) =
      true ∧
    ("maxtemp" : String) ≠ "mintemp" := by
  exact ⟨rfl, rfl, rfl, rfl, by decide⟩

/-- C10 (amended to newline-free basenames): for a temperature-sized file
whose basename contains no newline and contains both "max" and "min" (any
case), the inferred type is `mintemp` — the `min` rescan runs second and
overwrites the `max` one. -/
theorem c10_min_overrides_max (p : List Char) (size days : Nat)
    (hsize : sizeToTypeDays size = some ("temp", days))
    (hn : '\n' ∉ basename p)
    (_hmax : containsTokenCI ['m', 'a', 'x'] (basename p))
    (hmin : containsTokenCI ['m', 'i', 'n'] (basename p))
    (inp : ProgInput) (hok : getInput p size = Except.ok inp) :
    inp.type = "mintemp" := by
  have hscan : scanToken ['m', 'i', 'n'] (basename p) = true :=
    scanToken_of_containsTokenCI ['m', 'i', 'n'] (basename p) hn hmin
  unfold getInput at hok
  rw [hsize] at hok
  cases hf : findYear p with
  | some y => rw [hf] at hok; cases hok; simp [hscan]
  | none => rw [hf] at hok; cases hok; simp [hscan]

/-- Witness for C10: the temperature-sized file `"tmax_min_x.grd"`
(newline-free, containing both tokens) is inferred as `mintemp`. -/
theorem c10_min_overrides_max_witness :
    (⟨"tmax_min_x.grd".toList, 1403061, "mintemp", 365, -1, false⟩ :
      ProgInput).type = "mintemp" :=
  c10_min_overrides_max ("tmax_min_x.grd".toList) 1403061 365 rfl (by decide)
    ⟨1, by decide⟩ ⟨5, by decide⟩
    ⟨"tmax_min_x.grd".toList, 1403061, "mintemp", 365, -1, false⟩ rfl

theorem getD_take_of_lt (l : List Nat) (n i : Nat) (h : i < n) :
    (l.take n).getD i 0 = l.getD i 0 := by
  rw [List.getD_eq_getElem?_getD, List.getD_eq_getElem?_getD,
    List.getElem?_take_of_lt h]

theorem getD_drop (l : List Nat) (n i : Nat) :
    (l.drop n).getD i 0 = l.getD (n + i) 0 := by
  rw [List.getD_eq_getElem?_getD, List.getD_eq_getElem?_getD,
    List.getElem?_drop]

theorem word32At_take (l : List Nat) (n off : Nat) (h : off + 4 ≤ n) :
    word32At (l.take n) off = word32At l off := by
  unfold word32At
  rw [getD_take_of_lt l n off (by omega), getD_take_of_lt l n (off + 1) (by omega),
    getD_take_of_lt l n (off + 2) (by omega), getD_take_of_lt l n (off + 3) (by omega)]

theorem word32At_drop (l : List Nat) (n off : Nat) :
    word32At (l.drop n) off = word32At l (n + off) := by
  unfold word32At
  simp only [getD_drop, ← Nat.add_assoc]

theorem unpackLE_length : ∀ l : List Nat, (unpackLE l).length = l.length / 4
  | [] => rfl
  | [_] => by simp [unpackLE]
  | [_, _] => by simp [unpackLE]
  | [_, _, _] => by simp [unpackLE]
  | _ :: _ :: _ :: _ :: rest => by
    simp only [unpackLE, List.length_cons]
    rw [unpackLE_length rest]
    omega

theorem unpackLE_getD : ∀ (i : Nat) (l : List Nat), 4 * i + 4 ≤ l.length →
    (unpackLE l).getD i 0 = word32At l (4 * i)
  | _, [], h => by simp at h
  | _, [_], h => by simp at h
  | _, [_, _], h => by simp at h
  | _, [_, _, _], h => by simp at h
  | 0, b0 :: b1 :: b2 :: b3 :: rest, _ => by
    simp only [unpackLE, List.getD_cons_zero]
    unfold word32At
    simp [List.getD_cons_zero, List.getD_cons_succ]
  | i + 1, b0 :: b1 :: b2 :: b3 :: rest, h => by
    simp only [unpackLE, List.getD_cons_succ]
    rw [unpackLE_getD i rest (by simp at h; omega)]
    rw [show 4 * (i + 1) = 4 + 4 * i from by ring]
    exact word32At_drop (b0 :: b1 :: b2 :: b3 :: rest) 4 (4 * i)

theorem reshape_length (rows cols : Nat) (flat : List Nat) :
    (reshape rows cols flat).length = rows := by
  simp [reshape]

theorem reshape_getD (rows cols : Nat) (flat : List Nat) (r : Nat)
    (hr : r < rows) :
    (reshape rows cols flat).getD r [] = (flat.drop (r * cols)).take cols := by
  unfold reshape
  rw [List.getD_eq_getElem?_getD, List.getElem?_map, List.getElem?_range hr]
  rfl

theorem row_index_lt (la lo latc lonc : Nat) (hla : la < latc) (hlo : lo < lonc) :
    la * lonc + lo < latc * lonc := by
  calc la * lonc + lo < la * lonc + lonc := by omega
    _ = (la + 1) * lonc := by ring
    _ ≤ latc * lonc := Nat.mul_le_mul_right _ (by omega)

theorem readRecords_spec (latc lonc days : Nat) :
    ∀ bytes : List Nat, days * (latc * lonc * 4) ≤ bytes.length →
      ∃ g, readRecords latc lonc days bytes = some g ∧
        g.length = days ∧
        (∀ d, d < days → (g.getD d []).length = latc) ∧
        (∀ d la, d < days → la < latc → ((g.getD d []).getD la []).length = lonc) ∧
        (∀ d la lo, d < days → la < latc → lo < lonc →
          ((g.getD d []).getD la []).getD lo 0 =
            word32At bytes (4 * ((d * latc + la) * lonc + lo))) := by
  induction days with
  | zero =>
    intro bytes _
    exact ⟨[], rfl, rfl, fun d hd => absurd hd (Nat.not_lt_zero d),
      fun d la hd _ => absurd hd (Nat.not_lt_zero d),
      fun d la lo hd _ _ => absurd hd (Nat.not_lt_zero d)⟩
  | succ d0 ih =>
    intro bytes h
    have hneed : latc * lonc * 4 ≤ bytes.length := by
      have h1 : 1 * (latc * lonc * 4) ≤ (d0 + 1) * (latc * lonc * 4) :=
        Nat.mul_le_mul_right _ (by omega)
      rw [one_mul] at h1
      exact le_trans h1 h
    have hchunklen : (bytes.take (latc * lonc * 4)).length = latc * lonc * 4 := by
      rw [List.length_take]
      omega
    have hdroplen : d0 * (latc * lonc * 4) ≤ (bytes.drop (latc * lonc * 4)).length := by
      rw [List.length_drop]
      rw [Nat.succ_mul] at h
      exact Nat.le_sub_of_add_le h
    obtain ⟨g0, hg0, hlen0, hrow0, hcol0, hcell0⟩ :=
      ih (bytes.drop (latc * lonc * 4)) hdroplen
    have hflatlen : (unpackLE (bytes.take (latc * lonc * 4))).length = latc * lonc := by
      rw [unpackLE_length, hchunklen]
      omega
    refine ⟨reshape latc lonc (unpackLE (bytes.take (latc * lonc * 4))) :: g0,
      ?_, ?_, ?_, ?_, ?_⟩
    · simp only [readRecords]
      rw [if_pos hchunklen, hg0]
    · simp [hlen0]
    · intro d hd
      cases d with
      | zero => rw [List.getD_cons_zero, reshape_length]
      | succ d1 => rw [List.getD_cons_succ]; exact hrow0 d1 (by omega)
    · intro d la hd hla
      cases d with
      | zero =>
        rw [List.getD_cons_zero, reshape_getD latc lonc _ la hla,
          List.length_take, List.length_drop, hflatlen]
        have hmul : la * lonc + lonc ≤ latc * lonc := by
          calc la * lonc + lonc = (la + 1) * lonc := by ring
            _ ≤ latc * lonc := Nat.mul_le_mul_right _ (by omega)
        omega
      | succ d1 =>
        rw [List.getD_cons_succ]
        exact hcol0 d1 la (by omega) hla
    · intro d la lo hd hla hlo
      cases d with
      | zero =>
        rw [List.getD_cons_zero, reshape_getD latc lonc _ la hla,
          getD_take_of_lt _ _ _ hlo, getD_drop]
        have hidx : la * lonc + lo < latc * lonc :=
          row_index_lt la lo latc lonc hla hlo
        have h4 : 4 * (la * lonc + lo) + 4 ≤ latc * lonc * 4 := by
          have h5 : 4 * (la * lonc + lo + 1) ≤ 4 * (latc * lonc) :=
            Nat.mul_le_mul_left 4 (Nat.succ_le_of_lt hidx)
          calc 4 * (la * lonc + lo) + 4 = 4 * (la * lonc + lo + 1) := by ring
            _ ≤ 4 * (latc * lonc) := h5
            _ = latc * lonc * 4 := by ring
        rw [unpackLE_getD (la * lonc + lo) _ (by rw [hchunklen]; exact h4)]
        rw [word32At_take _ _ _ h4]
        congr 1
        ring
      | succ d1 =>
        rw [List.getD_cons_succ]
        rw [hcell0 d1 la lo (by omega) hla hlo]
        rw [word32At_drop]
        congr 1
        ring

/-- C9: the decode loop reads exactly `days` consecutive records from the
start of the file, each of exactly `latCount * lonCount * 4` bytes taken as
`latCount * lonCount` little-endian 32-bit values in row-major order,
reshaped to a `latCount × lonCount` grid stored at that day's index: the
result has shape `[days, latCount, lonCount]` and its cell `(d, la, lo)`
is exactly the little-endian word at byte offset
`4 * ((d * latCount + la) * lonCount + lo)` of the file — values pass
through unsubstituted.  `read_data` itself wires this through the
`DATA_TYPES` axis lengths for the input's type. -/
theorem c9_decode (latc lonc days : Nat) (bytes : List Nat)
    (h : days * (latc * lonc * 4) ≤ bytes.length) :
    (∃ g, readRecords latc lonc days bytes = some g ∧
      g.length = days ∧
      (∀ d, d < days → (g.getD d []).length = latc) ∧
      (∀ d la, d < days → la < latc → ((g.getD d []).getD la []).length = lonc) ∧
      (∀ d la lo, d < days → la < latc → lo < lonc →
        ((g.getD d []).getD la []).getD lo 0 =
          word32At bytes (4 * ((d * latc + la) * lonc + lo)))) ∧
    (∀ (inp : ProgInput) (spec : DatasetSpec),
      DATA_TYPES inp.type = some spec →
      spec.latCount = latc → spec.lonCount = lonc → inp.days = days →
      ∃ pd, readData bytes inp = some pd ∧
        pd.nlats = latc ∧ pd.nlons = lonc ∧ pd.days = days ∧
        readRecords latc lonc days bytes = some pd.data) := by
  obtain ⟨g, hg, hrest⟩ := readRecords_spec latc lonc days bytes h
  refine ⟨⟨g, hg, hrest⟩, ?_⟩
  intro inp spec hspec hlat hlon hdays
  refine ⟨⟨latc, lonc, inp.type, inp.year, days, spec.fill, g⟩, ?_, rfl, rfl, rfl, by rw [hg]⟩
  have hrr : readRecords spec.latCount spec.lonCount inp.days bytes = some g := by
    rw [hlat, hlon, hdays]
    exact hg
  simp only [readData, hspec, hrr]
  rw [hlat, hlon, hdays]

/-- Witness for C9: a one-day 1×1 "grid" whose single record is the four
bytes 1,0,0,0 decodes to the single little-endian word 1. -/
theorem c9_decode_witness :
    ∃ g, readRecords 1 1 1 (1 :: 0 :: 0 :: 0 :: []) = some g ∧
      g.length = 1 ∧
      (∀ d, d < 1 → (g.getD d []).length = 1) ∧
      (∀ d la, d < 1 → la < 1 → ((g.getD d []).getD la []).length = 1) ∧
      (∀ d la lo, d < 1 → la < 1 → lo < 1 →
        ((g.getD d []).getD la []).getD lo 0 =
          word32At (1 :: 0 :: 0 :: 0 :: []) (4 * ((d * 1 + la) * 1 + lo))) :=
  (c9_decode 1 1 1 (1 :: 0 :: 0 :: 0 :: []) (by decide)).1

end ImdGrdToNc
